import Mathlib

/-
Verification of the bar-sampling state machine in src/timeframe.rs.

Embedding conventions:
* A chrono `NaiveDateTime` is modelled as a natural number of seconds since
  0000-03-01 00:00:00 of the proleptic Gregorian calendar (the calendar chrono
  implements).  Dates before that instant are outside the model.
* The civil-calendar conversions that chrono provides (`year()`, `month()`,
  `from_ymd`, `weekday()`, date addition) are modelled by the standard
  month-index arithmetic below: `msd i` is the day number of the first day of
  calendar month `i` (month 0 = March of year 0), and `monthIdx z` recovers the
  month containing day `z` by the usual era/year-of-era inversion.
  Day 719468 is 1970-01-01, a Thursday, so `(z + 2) % 7 = 0` is the test for a
  Monday, matching `Weekday::num_days_from_monday`.
* `f64` prices are modelled as rationals; `f64::max`/`f64::min` on ordinary
  (non-NaN) values are `max`/`min`.
* The `while` gap-fill loop of the `next!` macro is modelled by the
  fuel-indexed `gapLoop`, called with fuel `t + 1`; the termination theorem for
  claim C10 shows this fuel is always sufficient and that the result does not
  depend on the fuel once it is large enough.
-/

set_option maxHeartbeats 4000000

namespace Metabars

/-- Day number (days since 0000-03-01) of the first day of calendar month `i`,
where month 0 is March of year 0 and the count runs over whole months
(so month `12*y + m` is the `m`-th month, March-based, of year `y`). -/
def msd (i : ℕ) : ℕ :=
  365 * (i / 12) + (i / 12) / 4 + (i / 12) / 400 + (153 * (i % 12) + 2) / 5 - (i / 12) / 100

/-- Index of the calendar month containing day `z` (Hinnant-style inversion of
`msd`: era of 400 years, year of era, day of year, month from day-of-year). -/
def monthIdx (z : ℕ) : ℕ :=
  let doe := z % 146097
  let yoe := (doe - doe / 1460 + doe / 36524 - doe / 146096) / 365
  let doy := doe - (365 * yoe + yoe / 4 - yoe / 100)
  let mp := (5 * doy + 2) / 153
  (z / 146097 * 400 + yoe) * 12 + mp

/-- Civil date `(year, month, day)` of day number `z`, months 1..12,
days 1..31, as chrono's accessors return them. -/
def civilFromDays (z : ℕ) : ℕ × ℕ × ℕ :=
  let i := monthIdx z
  let mp := i % 12
  let m := if mp < 10 then mp + 3 else mp - 9
  (if mp < 10 then i / 12 else i / 12 + 1, m, z - msd i + 1)

/-- Day number of the civil date `(y, m, d)` (chrono `from_ymd` composed with
the day count from the epoch). -/
def daysFromCivil (y m d : ℕ) : ℕ :=
  let y' := if m ≤ 2 then y - 1 else y
  let mp := if 2 < m then m - 3 else m + 9
  msd (y' * 12 + mp) + d - 1

/-- Year-of-era inversion bounds: the core arithmetic fact behind
`monthIdx`. -/
theorem yoe_bounds (doe : ℕ) (h : doe < 146097) :
    365 * ((doe - doe / 1460 + doe / 36524 - doe / 146096) / 365) +
        (doe - doe / 1460 + doe / 36524 - doe / 146096) / 365 / 4 -
        (doe - doe / 1460 + doe / 36524 - doe / 146096) / 365 / 100 ≤ doe ∧
      (doe - doe / 1460 + doe / 36524 - doe / 146096) / 365 ≤ 399 ∧
      ((doe - doe / 1460 + doe / 36524 - doe / 146096) / 365 ≤ 398 →
        doe < 365 * ((doe - doe / 1460 + doe / 36524 - doe / 146096) / 365 + 1) +
          ((doe - doe / 1460 + doe / 36524 - doe / 146096) / 365 + 1) / 4 -
          ((doe - doe / 1460 + doe / 36524 - doe / 146096) / 365 + 1) / 100) := by
  set yoe := (doe - doe / 1460 + doe / 36524 - doe / 146096) / 365 with hyoe
  have h2 : doe / 36524 = 0 ∨ doe / 36524 = 1 ∨ doe / 36524 = 2 ∨ doe / 36524 = 3 ∨
      doe / 36524 = 4 := by omega
  have h3 : yoe / 100 = 0 ∨ yoe / 100 = 1 ∨ yoe / 100 = 2 ∨ yoe / 100 = 3 ∨
      yoe / 100 = 4 := by omega
  have h4 : (yoe + 1) / 100 = 0 ∨ (yoe + 1) / 100 = 1 ∨ (yoe + 1) / 100 = 2 ∨
      (yoe + 1) / 100 = 3 ∨ (yoe + 1) / 100 = 4 := by omega
  rcases h2 with h2 | h2 | h2 | h2 | h2 <;> rcases h3 with h3 | h3 | h3 | h3 | h3 <;>
    rcases h4 with h4 | h4 | h4 | h4 | h4 <;> omega

/-- `monthIdx z` is the month whose first day is at or before `z` and whose
successor month starts strictly after `z`. -/
theorem monthIdx_spec (z : ℕ) : msd (monthIdx z) ≤ z ∧ z < msd (monthIdx z + 1) := by
  obtain ⟨hle, h399, hub⟩ := yoe_bounds (z % 146097) (Nat.mod_lt _ (by norm_num))
  unfold msd monthIdx
  set doe := z % 146097 with hdoe
  set yoe := (doe - doe / 1460 + doe / 36524 - doe / 146096) / 365 with hyoe
  set doy := doe - (365 * yoe + yoe / 4 - yoe / 100) with hdoy
  set mp := (5 * doy + 2) / 153 with hmp
  have hz : z = z / 146097 * 146097 + doe := by omega
  have hdoy365 : doy ≤ 365 := by
    rcases Nat.lt_or_ge yoe 399 with h | h
    · have := hub (by omega)
      omega
    · omega
  have hmp11 : mp ≤ 11 := by omega
  have hmlo : (153 * mp + 2) / 5 ≤ doy := by omega
  have hmhi : doy < (153 * (mp + 1) + 2) / 5 := by omega
  set Y := z / 146097 * 400 + yoe with hY
  have hi12 : (Y * 12 + mp) / 12 = Y := by omega
  have hi12' : (Y * 12 + mp) % 12 = mp := by omega
  have hY4 : Y / 4 = z / 146097 * 100 + yoe / 4 := by omega
  have hY100 : Y / 100 = z / 146097 * 4 + yoe / 100 := by omega
  have hY400 : Y / 400 = z / 146097 := by omega
  rcases Nat.lt_or_ge mp 11 with hc | hc
  · have hs12 : (Y * 12 + mp + 1) / 12 = Y := by omega
    have hs12' : (Y * 12 + mp + 1) % 12 = mp + 1 := by omega
    rw [hi12, hi12', hs12, hs12', hY4, hY100, hY400]
    omega
  · have hc' : mp = 11 := by omega
    have hs12 : (Y * 12 + mp + 1) / 12 = Y + 1 := by omega
    have hs12' : (Y * 12 + mp + 1) % 12 = 0 := by omega
    have hS4 : (Y + 1) / 4 = z / 146097 * 100 + (yoe + 1) / 4 := by omega
    have hS100 : (Y + 1) / 100 = z / 146097 * 4 + (yoe + 1) / 100 := by omega
    have hS400 : (Y + 1) / 400 = z / 146097 + (yoe + 1) / 400 := by omega
    rw [hi12, hi12', hs12, hs12', hY4, hY100, hY400, hS4, hS100, hS400]
    have h400 : (yoe + 1) / 400 = 0 ∨ (yoe + 1) / 400 = 1 := by omega
    rcases Nat.lt_or_ge yoe 399 with h | h
    · have := hub (by omega)
      omega
    · omega

/-- Month starts are strictly increasing month to month. -/
theorem msd_lt_succ (i : ℕ) : msd i < msd (i + 1) := by
  unfold msd
  rcases Nat.lt_or_ge (i % 12) 11 with h | h
  · have h1 : (i + 1) / 12 = i / 12 := by omega
    have h2 : (i + 1) % 12 = i % 12 + 1 := by omega
    rw [h1, h2]
    omega
  · have h' : i % 12 = 11 := by omega
    have h1 : (i + 1) / 12 = i / 12 + 1 := by omega
    have h2 : (i + 1) % 12 = 0 := by omega
    rw [h1, h2]
    have h3 : (i / 12 + 1) / 4 = i / 12 / 4 ∨ (i / 12 + 1) / 4 = i / 12 / 4 + 1 := by omega
    have h4 : (i / 12 + 1) / 100 = i / 12 / 100 ∨ (i / 12 + 1) / 100 = i / 12 / 100 + 1 := by
      omega
    have h5 : (i / 12 + 1) / 400 = i / 12 / 400 ∨ (i / 12 + 1) / 400 = i / 12 / 400 + 1 := by
      omega
    omega

/-- Month starts are monotone in the month index. -/
theorem msd_mono {i j : ℕ} (h : i ≤ j) : msd i ≤ msd j := by
  induction j with
  | zero =>
    have hi : i = 0 := by omega
    rw [hi]
  | succ j ih =>
    rcases Nat.lt_or_ge i (j + 1) with h' | h'
    · exact le_trans (ih (by omega)) (msd_lt_succ j).le
    · have hi : i = j + 1 := by omega
      rw [hi]

/-- The month index of a month start is that month. -/
theorem monthIdx_msd (i : ℕ) : monthIdx (msd i) = i := by
  obtain ⟨h1, h2⟩ := monthIdx_spec (msd i)
  rcases lt_trichotomy (monthIdx (msd i)) i with h | h | h
  · have := msd_mono (show monthIdx (msd i) + 1 ≤ i by omega)
    omega
  · exact h
  · have := msd_mono (show i + 1 ≤ monthIdx (msd i) by omega)
    have := msd_lt_succ i
    omega

/-- `monthIdx` is monotone. -/
theorem monthIdx_mono {z1 z2 : ℕ} (h : z1 ≤ z2) : monthIdx z1 ≤ monthIdx z2 := by
  by_contra hc
  have h1 := monthIdx_spec z1
  have h2 := monthIdx_spec z2
  have := msd_mono (show monthIdx z2 + 1 ≤ monthIdx z1 by omega)
  omega

/-- Any day for which `monthIdx` answers `i` lies between the start of month
`i` and the start of month `i + 1`; conversely such a day has index `i`. -/
theorem monthIdx_eq_of_bounds {z i : ℕ} (h1 : msd i ≤ z) (h2 : z < msd (i + 1)) :
    monthIdx z = i := by
  obtain ⟨g1, g2⟩ := monthIdx_spec z
  rcases lt_trichotomy (monthIdx z) i with h | h | h
  · have := msd_mono (show monthIdx z + 1 ≤ i by omega)
    omega
  · exact h
  · have := msd_mono (show i + 1 ≤ monthIdx z by omega)
    omega

/-- The month start of the month of `z`, in source coordinates
(`from_ymd(year, month, 1)`), equals `msd (monthIdx z)`. -/
theorem monthStart_eq (z : ℕ) :
    daysFromCivil (civilFromDays z).1 (civilFromDays z).2.1 1 = msd (monthIdx z) := by
  unfold daysFromCivil civilFromDays
  have h12 : monthIdx z % 12 < 12 := Nat.mod_lt _ (by norm_num)
  set i := monthIdx z with hi
  rcases Nat.lt_or_ge (i % 12) 10 with h | h
  · simp only [if_pos h]
    have hm : ¬ (i % 12 + 3 ≤ 2) := by omega
    have hm' : 2 < i % 12 + 3 := by omega
    simp only [if_neg hm, if_pos hm']
    have : i / 12 * 12 + (i % 12 + 3 - 3) = i := by omega
    rw [this]
    omega
  · simp only [if_neg (by omega : ¬ i % 12 < 10)]
    have hm : i % 12 - 9 ≤ 2 := by omega
    have hm' : ¬ 2 < i % 12 - 9 := by omega
    simp only [if_pos hm, if_neg hm']
    have : (i / 12 + 1 - 1) * 12 + (i % 12 - 9 + 9) = i := by omega
    rw [this]
    omega

/-- The start of the month after the month of `z`, in source coordinates
(December rolls the year, any other month just increments), equals
`msd (monthIdx z + 1)`. -/
theorem nextMonthStart_eq (z : ℕ) :
    (if (civilFromDays z).2.1 = 12 then daysFromCivil ((civilFromDays z).1 + 1) 1 1
      else daysFromCivil (civilFromDays z).1 ((civilFromDays z).2.1 + 1) 1) =
      msd (monthIdx z + 1) := by
  unfold daysFromCivil civilFromDays
  have h12 : monthIdx z % 12 < 12 := Nat.mod_lt _ (by norm_num)
  set i := monthIdx z with hi
  rcases Nat.lt_or_ge (i % 12) 10 with h | h
  · simp only [if_pos h]
    rcases Nat.lt_or_ge (i % 12) 9 with h9 | h9
    · have hne : ¬ (i % 12 + 3 = 12) := by omega
      simp only [if_neg hne]
      have hm : ¬ (i % 12 + 3 + 1 ≤ 2) := by omega
      have hm' : 2 < i % 12 + 3 + 1 := by omega
      simp only [if_neg hm, if_pos hm']
      have : i / 12 * 12 + (i % 12 + 3 + 1 - 3) = i + 1 := by omega
      rw [this]
      omega
    · have h9' : i % 12 = 9 := by omega
      have heq : i % 12 + 3 = 12 := by omega
      simp only [if_pos heq]
      have hm : (1 : ℕ) ≤ 2 := by omega
      have hm' : ¬ (2 < 1) := by omega
      simp only [if_pos hm, if_neg hm']
      have : (i / 12 + 1 - 1) * 12 + (1 + 9) = i + 1 := by omega
      rw [this]
      omega
  · simp only [if_neg (by omega : ¬ i % 12 < 10)]
    rcases Nat.lt_or_ge (i % 12) 11 with h10 | h10
    · have h10' : i % 12 = 10 := by omega
      have hne : ¬ (i % 12 - 9 = 12) := by omega
      simp only [if_neg hne]
      have hm : i % 12 - 9 + 1 ≤ 2 := by omega
      have hm' : ¬ (2 < i % 12 - 9 + 1) := by omega
      simp only [if_pos hm, if_neg hm']
      have : (i / 12 + 1 - 1) * 12 + (i % 12 - 9 + 1 + 9) = i + 1 := by omega
      rw [this]
      omega
    · have h11 : i % 12 = 11 := by omega
      have hne : ¬ (i % 12 - 9 = 12) := by omega
      simp only [if_neg hne]
      have hm : ¬ (i % 12 - 9 + 1 ≤ 2) := by omega
      have hm' : 2 < i % 12 - 9 + 1 := by omega
      simp only [if_neg hm, if_pos hm']
      have : (i / 12 + 1) * 12 + (i % 12 - 9 + 1 - 3) = i + 1 := by omega
      rw [this]
      omega

/-- One completed accumulation period (struct `Bar` in the source): OHLC plus
the half-open interval `[bar_start, next_bar_dt)` it covers. -/
structure Bar where
  open_ : ℚ
  high : ℚ
  low : ℚ
  close : ℚ
  bar_start : ℕ
  next_bar_dt : ℕ
deriving DecidableEq

/-- The in-progress accumulation (struct `State` in the source). -/
structure State where
  bar_start : ℕ
  next_bar_dt : ℕ
  open_ : ℚ
  high : ℚ
  low : ℚ
  close : ℚ
deriving DecidableEq

/-- Result of one `next_bar` call that closed a period (enum `Bars`):
either just the closing bar, or the closing bar plus the synthetic empty
bars for tick-free periods. -/
inductive Bars where
  | Single (bar : Bar)
  | WithEmpty (bar : Bar) (empty : List Bar)
deriving DecidableEq

/-- The catalog of timeframe samplers: one constructor per macro-generated
struct in the source. -/
inductive Sampler where
  | M1 | M2 | M3 | M4 | M5 | M6 | M10 | M12 | M15 | M20 | M30
  | H1 | H2 | H3 | H4 | H6 | H8 | H12
  | D1 | W1 | Mn1
deriving DecidableEq

/-- `Minute!` `next_bar_dt`: truncate to the hour, then add
`minute + (p - minute % p)` minutes. -/
def minute_next_bar_dt (p t : ℕ) : ℕ :=
  t - t % 3600 + 60 * (t / 60 % 60 + (p - t / 60 % 60 % p))

/-- `Minute!` `bar_start`: same date and hour, minute floored to a multiple
of `p`, seconds zeroed. -/
def minute_bar_start (p t : ℕ) : ℕ :=
  t - t % 86400 + 3600 * (t / 3600 % 24) + 60 * (t / 60 % 60 / p * p)

/-- `Hour!` `next_bar_dt`: truncate to midnight, then add
`hour + (p - hour % p)` hours. -/
def hour_next_bar_dt (p t : ℕ) : ℕ :=
  t - t % 86400 + 3600 * (t / 3600 % 24 + (p - t / 3600 % 24 % p))

/-- `Hour!` `bar_start`: same date, hour floored to a multiple of `p`. -/
def hour_bar_start (p t : ℕ) : ℕ :=
  t - t % 86400 + 3600 * (t / 3600 % 24 / p * p)

/-- `D1::next_bar_dt`: midnight of the next day. -/
def d1_next_bar_dt (t : ℕ) : ℕ := t - t % 86400 + 86400

/-- `D1::bar_start`: midnight of the same day. -/
def d1_bar_start (t : ℕ) : ℕ := t - t % 86400

/-- `W1::next_bar_dt`: midnight of the date plus `7 - num_days_from_monday`
days, i.e. the next Monday (a full week ahead when `t` is already Monday). -/
def w1_next_bar_dt (t : ℕ) : ℕ :=
  86400 * (t / 86400 + (7 - (t / 86400 + 2) % 7))

/-- `W1::bar_start`: midnight of the date minus `number_from_monday - 1`
days, i.e. the Monday of the current week. -/
def w1_bar_start (t : ℕ) : ℕ :=
  86400 * (t / 86400) - 86400 * ((t / 86400 + 2) % 7)

/-- `Mn1::next_bar_dt`: the first of the next month at midnight; December
advances the year. -/
def mn1_next_bar_dt (t : ℕ) : ℕ :=
  86400 *
    (if (civilFromDays (t / 86400)).2.1 = 12 then
      daysFromCivil ((civilFromDays (t / 86400)).1 + 1) 1 1
    else daysFromCivil (civilFromDays (t / 86400)).1 ((civilFromDays (t / 86400)).2.1 + 1) 1)

/-- `Mn1::bar_start`: the first of the current month at midnight. -/
def mn1_bar_start (t : ℕ) : ℕ :=
  86400 * daysFromCivil (civilFromDays (t / 86400)).1 (civilFromDays (t / 86400)).2.1 1

/-- Dispatch of the per-timeframe `next_bar_dt` boundary function. -/
def Sampler.next_bar_dt (sp : Sampler) (t : ℕ) : ℕ :=
  match sp with
  | .M1 => minute_next_bar_dt 1 t
  | .M2 => minute_next_bar_dt 2 t
  | .M3 => minute_next_bar_dt 3 t
  | .M4 => minute_next_bar_dt 4 t
  | .M5 => minute_next_bar_dt 5 t
  | .M6 => minute_next_bar_dt 6 t
  | .M10 => minute_next_bar_dt 10 t
  | .M12 => minute_next_bar_dt 12 t
  | .M15 => minute_next_bar_dt 15 t
  | .M20 => minute_next_bar_dt 20 t
  | .M30 => minute_next_bar_dt 30 t
  | .H1 => hour_next_bar_dt 1 t
  | .H2 => hour_next_bar_dt 2 t
  | .H3 => hour_next_bar_dt 3 t
  | .H4 => hour_next_bar_dt 4 t
  | .H6 => hour_next_bar_dt 6 t
  | .H8 => hour_next_bar_dt 8 t
  | .H12 => hour_next_bar_dt 12 t
  | .D1 => d1_next_bar_dt t
  | .W1 => w1_next_bar_dt t
  | .Mn1 => mn1_next_bar_dt t

/-- Dispatch of the per-timeframe `bar_start` alignment function. -/
def Sampler.bar_start (sp : Sampler) (t : ℕ) : ℕ :=
  match sp with
  | .M1 => minute_bar_start 1 t
  | .M2 => minute_bar_start 2 t
  | .M3 => minute_bar_start 3 t
  | .M4 => minute_bar_start 4 t
  | .M5 => minute_bar_start 5 t
  | .M6 => minute_bar_start 6 t
  | .M10 => minute_bar_start 10 t
  | .M12 => minute_bar_start 12 t
  | .M15 => minute_bar_start 15 t
  | .M20 => minute_bar_start 20 t
  | .M30 => minute_bar_start 30 t
  | .H1 => hour_bar_start 1 t
  | .H2 => hour_bar_start 2 t
  | .H3 => hour_bar_start 3 t
  | .H4 => hour_bar_start 4 t
  | .H6 => hour_bar_start 6 t
  | .H8 => hour_bar_start 8 t
  | .H12 => hour_bar_start 12 t
  | .D1 => d1_bar_start t
  | .W1 => w1_bar_start t
  | .Mn1 => mn1_bar_start t

/-- The gap-fill `while` loop of the `next!` macro, with explicit fuel:
starting from the candidate empty period `[s, e)`, while `t >= e` push an
empty bar (flat OHLC `c`) and advance one period via `f`.  Returns the
pushed bars and the final `(empty_bar_start, empty_bar_end)` pair. -/
def gapLoop (f : ℕ → ℕ) (c : ℚ) (t : ℕ) : ℕ → ℕ → ℕ → List Bar × ℕ × ℕ
  | 0, s, e => ([], s, e)
  | fuel + 1, s, e =>
    if e ≤ t then
      let r := gapLoop f c t fuel e (f e)
      (⟨c, c, c, c, s, e⟩ :: r.1, r.2)
    else ([], s, e)

/-- The `next_bar` method of the `next!` macro.  The mutable `self.state` is
passed and returned explicitly; the `while` loop is `gapLoop` with fuel
`t + 1` (always sufficient, see the termination theorem for C10). -/
def Sampler.next_bar (sp : Sampler) (state : Option State) (t : ℕ) (value : ℚ) :
    Option Bars × Option State :=
  match state with
  | some st =>
    if st.next_bar_dt ≤ t then
      let full_bar : Bar := ⟨st.open_, st.high, st.low, st.close, st.bar_start, st.next_bar_dt⟩
      let r := gapLoop (sp.next_bar_dt) st.close t (t + 1) st.next_bar_dt
        (sp.next_bar_dt st.next_bar_dt)
      let st' : State := ⟨r.2.1, r.2.2, value, value, value, value⟩
      if 0 < r.1.length then (some (Bars.WithEmpty full_bar r.1), some st')
      else (some (Bars.Single full_bar), some st')
    else
      (none, some ⟨st.bar_start, st.next_bar_dt, st.open_, max value st.high,
        min value st.low, value⟩)
  | none => (none, some ⟨sp.bar_start t, sp.next_bar_dt t, value, value, value, value⟩)

/-- The `current_incomplete` method: a snapshot of the in-progress state as a
`Bar` (the `From<State> for Bar` conversion), or nothing before the first
tick. -/
def Sampler.current_incomplete (state : Option State) : Option Bar :=
  state.map fun st => ⟨st.open_, st.high, st.low, st.close, st.bar_start, st.next_bar_dt⟩

/-- `<dyn Sampler>::from_short`: the textual timeframe-code factory.  The
source matches exactly the eleven minute codes and seven hour codes; every
other string (including the daily, weekly and monthly codes) falls to the
wildcard arm returning `None`. -/
def Sampler.from_short (short : String) : Option Sampler :=
  match short with
  | "M1" => some .M1
  | "M2" => some .M2
  | "M3" => some .M3
  | "M4" => some .M4
  | "M5" => some .M5
  | "M6" => some .M6
  | "M10" => some .M10
  | "M12" => some .M12
  | "M15" => some .M15
  | "M20" => some .M20
  | "M30" => some .M30
  | "H1" => some .H1
  | "H2" => some .H2
  | "H3" => some .H3
  | "H4" => some .H4
  | "H6" => some .H6
  | "H8" => some .H8
  | "H12" => some .H12
  | _ => none

/-- Seconds count of the civil instant y-m-d hh:mm:ss (test helper). -/
def dts (y m d hh mm ss : ℕ) : ℕ :=
  86400 * daysFromCivil y m d + 3600 * hh + 60 * mm + ss

-- Sanity: day 719468 is 1970-01-01 and the embedding round-trips it.
example : daysFromCivil 1970 1 1 = 719468 := by decide
example : civilFromDays 719468 = (1970, 1, 1) := by decide
-- Sanity: 2021-01-04 is a Monday in the weekday embedding.
example : (daysFromCivil 2021 1 4 + 2) % 7 = 0 := by decide

-- The following examples replicate the unit tests of the source file
-- (test_m15, test_h12, test_d1, test_w1, test_mn1) on the embedding.

example :
    let r0 := Sampler.next_bar .M15 none (dts 2015 1 1 10 3 0) 0
    r0.1 = none ∧
    Sampler.current_incomplete r0.2 =
      some ⟨0, 0, 0, 0, dts 2015 1 1 10 0 0, dts 2015 1 1 10 15 0⟩ := by decide

example :
    let r0 := Sampler.next_bar .M15 none (dts 2015 1 1 10 3 0) 0
    let r1 := Sampler.next_bar .M15 r0.2 (dts 2015 1 1 10 4 0) 4
    let r2 := Sampler.next_bar .M15 r1.2 (dts 2015 1 1 10 15 0) 15
    r1.1 = none ∧
    r2.1 = some (Bars.Single ⟨0, 4, 0, 4, dts 2015 1 1 10 0 0, dts 2015 1 1 10 15 0⟩) := by
  decide

example :
    let r2 := Sampler.next_bar .M15
      (some ⟨dts 2015 1 1 10 15 0, dts 2015 1 1 10 30 0, 15, 15, 15, 15⟩)
      (dts 2015 1 1 10 15 1) 16
    let r3 := Sampler.next_bar .M15 r2.2 (dts 2015 1 1 10 15 2) 15
    let r4 := Sampler.next_bar .M15 r3.2 (dts 2015 1 1 10 45 2) 45
    r2.1 = none ∧ r3.1 = none ∧
    r4.1 = some (Bars.WithEmpty
      ⟨15, 16, 15, 15, dts 2015 1 1 10 15 0, dts 2015 1 1 10 30 0⟩
      [⟨15, 15, 15, 15, dts 2015 1 1 10 30 0, dts 2015 1 1 10 45 0⟩]) := by decide

example :
    let r0 := Sampler.next_bar .H12
      (some ⟨dts 2015 1 1 12 0 0, dts 2015 1 2 0 0 0, 15, 15, 15, 15⟩)
      (dts 2015 1 3 10 45 2) 45
    r0.1 = some (Bars.WithEmpty
      ⟨15, 15, 15, 15, dts 2015 1 1 12 0 0, dts 2015 1 2 0 0 0⟩
      [⟨15, 15, 15, 15, dts 2015 1 2 0 0 0, dts 2015 1 2 12 0 0⟩,
       ⟨15, 15, 15, 15, dts 2015 1 2 12 0 0, dts 2015 1 3 0 0 0⟩]) := by decide

example :
    let r0 := Sampler.next_bar .D1 none (dts 2015 1 3 10 45 2) 0
    let r1 := Sampler.next_bar .D1 r0.2 (dts 2015 1 4 0 0 0) 1
    let r2 := Sampler.next_bar .D1 r1.2 (dts 2015 1 7 0 0 0) 2
    r0.1 = none ∧
    r1.1 = some (Bars.Single ⟨0, 0, 0, 0, dts 2015 1 3 0 0 0, dts 2015 1 4 0 0 0⟩) ∧
    r2.1 = some (Bars.WithEmpty
      ⟨1, 1, 1, 1, dts 2015 1 4 0 0 0, dts 2015 1 5 0 0 0⟩
      [⟨1, 1, 1, 1, dts 2015 1 5 0 0 0, dts 2015 1 6 0 0 0⟩,
       ⟨1, 1, 1, 1, dts 2015 1 6 0 0 0, dts 2015 1 7 0 0 0⟩]) := by decide

example :
    let r0 := Sampler.next_bar .W1 none (dts 2021 1 4 10 45 2) 0
    let r1 := Sampler.next_bar .W1 r0.2 (dts 2021 1 5 0 0 0) 1
    let r2 := Sampler.next_bar .W1 r1.2 (dts 2021 1 11 0 0 0) 2
    let r3 := Sampler.next_bar .W1 r2.2 (dts 2021 1 26 0 0 0) 3
    r0.1 = none ∧ r1.1 = none ∧
    r2.1 = some (Bars.Single ⟨0, 1, 0, 1, dts 2021 1 4 0 0 0, dts 2021 1 11 0 0 0⟩) ∧
    r3.1 = some (Bars.WithEmpty
      ⟨2, 2, 2, 2, dts 2021 1 11 0 0 0, dts 2021 1 18 0 0 0⟩
      [⟨2, 2, 2, 2, dts 2021 1 18 0 0 0, dts 2021 1 25 0 0 0⟩]) := by decide

example :
    let r0 := Sampler.next_bar .Mn1
      (some ⟨dts 2020 10 1 0 0 0, dts 2020 11 1 0 0 0, 3, 3, 3, 3⟩)
      (dts 2021 1 1 0 0 1) 3
    r0.1 = some (Bars.WithEmpty
      ⟨3, 3, 3, 3, dts 2020 10 1 0 0 0, dts 2020 11 1 0 0 0⟩
      [⟨3, 3, 3, 3, dts 2020 11 1 0 0 0, dts 2020 12 1 0 0 0⟩,
       ⟨3, 3, 3, 3, dts 2020 12 1 0 0 0, dts 2021 1 1 0 0 0⟩]) := by decide

/-- `Mn1::next_bar_dt` lands exactly on the start of the next month index. -/
theorem mn1_next_eq_msd (t : ℕ) :
    mn1_next_bar_dt t = 86400 * msd (monthIdx (t / 86400) + 1) := by
  unfold mn1_next_bar_dt
  rw [nextMonthStart_eq]

/-- `Mn1::bar_start` lands exactly on the start of the current month index. -/
theorem mn1_start_eq_msd (t : ℕ) :
    mn1_bar_start t = 86400 * msd (monthIdx (t / 86400)) := by
  unfold mn1_bar_start
  rw [monthStart_eq]

/-- Every boundary function advances strictly past its argument. -/
theorem next_bar_dt_gt (sp : Sampler) (t : ℕ) : t < sp.next_bar_dt t := by
  cases sp <;>
    simp only [Sampler.next_bar_dt, minute_next_bar_dt, hour_next_bar_dt, d1_next_bar_dt,
      w1_next_bar_dt] <;>
    try omega
  rw [mn1_next_eq_msd]
  obtain ⟨h1, h2⟩ := monthIdx_spec (t / 86400)
  omega

/-- Every boundary function is monotone in the timestamp. -/
theorem next_bar_dt_mono (sp : Sampler) {t1 t2 : ℕ} (h : t1 ≤ t2) :
    sp.next_bar_dt t1 ≤ sp.next_bar_dt t2 := by
  cases sp <;>
    simp only [Sampler.next_bar_dt, minute_next_bar_dt, hour_next_bar_dt, d1_next_bar_dt,
      w1_next_bar_dt] <;>
    try omega
  rw [mn1_next_eq_msd, mn1_next_eq_msd]
  have h1 := monthIdx_mono (Nat.div_le_div_right (c := 86400) h)
  have h2 := msd_mono (show monthIdx (t1 / 86400) + 1 ≤ monthIdx (t2 / 86400) + 1 by omega)
  omega

/-- Advancing from the period start gives the same boundary as advancing from
any timestamp inside the period: `periodEnd (periodStart t) = periodEnd t`. -/
theorem next_bar_dt_bar_start (sp : Sampler) (t : ℕ) :
    sp.next_bar_dt (sp.bar_start t) = sp.next_bar_dt t := by
  cases sp <;>
    simp only [Sampler.next_bar_dt, Sampler.bar_start, minute_next_bar_dt, minute_bar_start,
      hour_next_bar_dt, hour_bar_start, d1_next_bar_dt, d1_bar_start, w1_next_bar_dt,
      w1_bar_start] <;>
    try omega
  rw [mn1_next_eq_msd, mn1_next_eq_msd, mn1_start_eq_msd]
  have hdiv : 86400 * msd (monthIdx (t / 86400)) / 86400 = msd (monthIdx (t / 86400)) := by
    omega
  rw [hdiv, monthIdx_msd]

/-- The fixed period length, in seconds, of every sampler that has one
(the monthly sampler has none). -/
def periodLen : Sampler → Option ℕ
  | .M1 => some 60
  | .M2 => some 120
  | .M3 => some 180
  | .M4 => some 240
  | .M5 => some 300
  | .M6 => some 360
  | .M10 => some 600
  | .M12 => some 720
  | .M15 => some 900
  | .M20 => some 1200
  | .M30 => some 1800
  | .H1 => some 3600
  | .H2 => some 7200
  | .H3 => some 10800
  | .H4 => some 14400
  | .H6 => some 21600
  | .H8 => some 28800
  | .H12 => some 43200
  | .D1 => some 86400
  | .W1 => some 604800
  | .Mn1 => none

/-- `alignedb sp e` holds when `e` is a period boundary of sampler `sp`
(always false for the monthly sampler, which has no fixed period). -/
def alignedb (sp : Sampler) (e : ℕ) : Bool :=
  match sp with
  | .M1 => e % 60 == 0
  | .M2 => e % 120 == 0
  | .M3 => e % 180 == 0
  | .M4 => e % 240 == 0
  | .M5 => e % 300 == 0
  | .M6 => e % 360 == 0
  | .M10 => e % 600 == 0
  | .M12 => e % 720 == 0
  | .M15 => e % 900 == 0
  | .M20 => e % 1200 == 0
  | .M30 => e % 1800 == 0
  | .H1 => e % 3600 == 0
  | .H2 => e % 7200 == 0
  | .H3 => e % 10800 == 0
  | .H4 => e % 14400 == 0
  | .H6 => e % 21600 == 0
  | .H8 => e % 28800 == 0
  | .H12 => e % 43200 == 0
  | .D1 => e % 86400 == 0
  | .W1 => e % 86400 == 0 && (e / 86400 + 2) % 7 == 0
  | .Mn1 => false

/-- On an aligned boundary the boundary function advances by exactly one
period, and the result is aligned again. -/
theorem aligned_step (sp : Sampler) (L e : ℕ) (hL : periodLen sp = some L)
    (ha : alignedb sp e = true) : sp.next_bar_dt e = e + L ∧ alignedb sp (e + L) = true := by
  cases sp <;>
    simp only [periodLen, Option.some.injEq, reduceCtorEq] at hL <;>
    subst hL <;>
    simp only [alignedb, Bool.and_eq_true, beq_iff_eq] at ha ⊢ <;>
    simp only [Sampler.next_bar_dt, minute_next_bar_dt, hour_next_bar_dt, d1_next_bar_dt,
      w1_next_bar_dt] <;>
    omega

/-- Iterating the boundary function from an aligned boundary walks the
period grid. -/
theorem aligned_iterate (sp : Sampler) (L e : ℕ) (hL : periodLen sp = some L)
    (ha : alignedb sp e = true) :
    ∀ j, (Sampler.next_bar_dt sp)^[j] e = e + j * L ∧ alignedb sp (e + j * L) = true := by
  intro j
  induction j with
  | zero => simpa using ha
  | succ j ih =>
    obtain ⟨ih1, ih2⟩ := ih
    obtain ⟨s1, s2⟩ := aligned_step sp L (e + j * L) hL ih2
    constructor
    · rw [Function.iterate_succ_apply', ih1, s1]
      ring
    · have : e + (j + 1) * L = e + j * L + L := by ring
      rw [this]
      exact s2

/-- Every sampler with a fixed period length has a positive one. -/
theorem periodLen_pos (sp : Sampler) (L : ℕ) (hL : periodLen sp = some L) : 0 < L := by
  cases sp <;> simp only [periodLen, Option.some.injEq, reduceCtorEq] at hL <;> omega

/-- Complete characterization of the gap-fill loop when the fuel is
sufficient: starting from candidate period `[s, f s)`, the loop emits one
flat bar per period boundary not exceeding `t` and stops at the first
boundary past `t`. -/
theorem gapLoop_iterates (f : ℕ → ℕ) (c : ℚ) (t : ℕ) (hf : ∀ x, x < f x) :
    ∀ fuel s, t < f s + fuel →
      ∃ n, gapLoop f c t fuel s (f s) =
          ((List.range n).map fun j => (⟨c, c, c, c, f^[j] s, f^[j + 1] s⟩ : Bar),
            f^[n] s, f^[n + 1] s) ∧
        (∀ j, 1 ≤ j → j ≤ n → f^[j] s ≤ t) ∧ t < f^[n + 1] s := by
  intro fuel
  induction fuel with
  | zero =>
    intro s hs
    refine ⟨0, ?_, by omega, by simpa using (by omega : t < f s)⟩
    simp [gapLoop]
  | succ fuel ih =>
    intro s hs
    by_cases hc : f s ≤ t
    · obtain ⟨n, h1, h2, h3⟩ := ih (f s) (by have := hf (f s); omega)
      refine ⟨n + 1, ?_, ?_, ?_⟩
      · rw [gapLoop, if_pos hc, h1]
        refine congrArg₂ Prod.mk ?_ (by simp [Function.iterate_succ_apply])
        rw [List.range_succ_eq_map, List.map_cons, List.map_map]
        simp [Function.comp, Function.iterate_succ_apply]
      · intro j hj1 hj2
        rcases Nat.lt_or_ge j 2 with hj | hj
        · have : j = 1 := by omega
          simpa [this] using hc
        · obtain ⟨j', rfl⟩ : ∃ j', j = j' + 1 := ⟨j - 1, by omega⟩
          have := h2 j' (by omega) (by omega)
          have hconv : f^[j' + 1] s = f^[j'] (f s) := Function.iterate_succ_apply f j' s
          omega
      · have hconv : f^[n + 1 + 1] s = f^[n + 1] (f s) := Function.iterate_succ_apply f (n + 1) s
        omega
    · refine ⟨0, ?_, by omega, by simpa using (by omega : t < f s)⟩
      rw [gapLoop, if_neg hc]
      simp

/-- The number of loop iterations is determined by the boundary structure
alone, not by the fuel. -/
theorem loop_count_unique (f : ℕ → ℕ) (t s : ℕ) (n1 n2 : ℕ)
    (h1 : ∀ j, 1 ≤ j → j ≤ n1 → f^[j] s ≤ t) (h1' : t < f^[n1 + 1] s)
    (h2 : ∀ j, 1 ≤ j → j ≤ n2 → f^[j] s ≤ t) (h2' : t < f^[n2 + 1] s) : n1 = n2 := by
  rcases lt_trichotomy n1 n2 with h | h | h
  · have := h2 (n1 + 1) (by omega) (by omega)
    omega
  · exact h
  · have := h1 (n2 + 1) (by omega) (by omega)
    omega

/-- The civil date of a month start is the first of that month. -/
theorem civil_msd (i : ℕ) :
    civilFromDays (msd i) =
      (if i % 12 < 10 then i / 12 else i / 12 + 1,
        if i % 12 < 10 then i % 12 + 3 else i % 12 - 9, 1) := by
  simp [civilFromDays, monthIdx_msd]

/-- The emitted bars of one call, in order: the closing bar, then the
synthetic empty bars. -/
def barsList : Bars → List Bar
  | .Single bar => [bar]
  | .WithEmpty bar empty => bar :: empty

/-- The minute and hour codes recognized by `from_short`. -/
def knownCodes : List String :=
  ["M1", "M2", "M3", "M4", "M5", "M6", "M10", "M12", "M15", "M20", "M30",
    "H1", "H2", "H3", "H4", "H6", "H8", "H12"]

/-- C4: on an uninitialized sampler, the first tick `(t, v)` returns no bars
and seeds an accumulating state with `open = high = low = close = v`, period
start `periodStart t` and period end `periodEnd (periodStart t)`. -/
theorem C4_first_tick_seeds (sp : Sampler) (t : ℕ) (v : ℚ) :
    sp.next_bar none t v =
      (none, some ⟨sp.bar_start t, sp.next_bar_dt (sp.bar_start t), v, v, v, v⟩) := by
  rw [next_bar_dt_bar_start]
  rfl

/-- C5: a tick strictly inside the current period emits nothing and updates
exactly `high := max price high`, `low := min price low`, `close := price`,
leaving `open`, `bar_start` and `next_bar_dt` unchanged; `current_incomplete`
then reflects exactly these values. -/
theorem C5_within_period (sp : Sampler) (st : State) (t : ℕ) (v : ℚ)
    (h : t < st.next_bar_dt) :
    sp.next_bar (some st) t v =
      (none, some ⟨st.bar_start, st.next_bar_dt, st.open_, max v st.high, min v st.low, v⟩) ∧
    Sampler.current_incomplete (sp.next_bar (some st) t v).2 =
      some ⟨st.open_, max v st.high, min v st.low, v, st.bar_start, st.next_bar_dt⟩ := by
  have hcond : ¬ st.next_bar_dt ≤ t := by omega
  constructor
  · simp only [Sampler.next_bar, if_neg hcond]
  · simp only [Sampler.next_bar, if_neg hcond, Sampler.current_incomplete]
    rfl

/-- Witness for C5 at a concrete M15 state and tick. -/
theorem C5_witness :
    Sampler.next_bar .M15 (some ⟨36900, 37800, 1, 3, 1, 2⟩) 37000 5 =
      (none, some ⟨36900, 37800, 1, max 5 3, min 5 1, 5⟩) ∧
    Sampler.current_incomplete
        (Sampler.next_bar .M15 (some ⟨36900, 37800, 1, 3, 1, 2⟩) 37000 5).2 =
      some ⟨1, max 5 3, min 5 1, 5, 36900, 37800⟩ :=
  C5_within_period .M15 ⟨36900, 37800, 1, 3, 1, 2⟩ 37000 5 (by decide)

/-- C2 evaluation: the code has no out-of-order check.  An M15 sampler that
saw a tick at second 37440 (10:24:00, price 4) and is then fed an EARLIER
tick at second 37380 (10:23:00, price 10) reports no error of any kind: the
call returns `None` like a normal in-period tick and silently folds the
out-of-order price into the extrema (`high` becomes 10). -/
theorem C2_out_of_order_not_detected :
    (Sampler.next_bar .M15 (Sampler.next_bar .M15 none 37440 4).2 37380 10).1 = none ∧
    (Sampler.next_bar .M15 (Sampler.next_bar .M15 none 37440 4).2 37380 10).2 =
      some ⟨36900, 37800, 4, 10, 4, 10⟩ := by decide

/-- C3 counterexample: the factory does not recognize the daily, weekly or
monthly codes of the catalog; all three fall to the wildcard arm. -/
theorem C3_counterexample :
    Sampler.from_short ("D1") = none ∧ Sampler.from_short ("W1") = none ∧
      Sampler.from_short ("MN1") = none :=
  ⟨rfl, rfl, rfl⟩

/-- C3 amended: `from_short` returns a sampler exactly for the eleven minute
codes and seven hour codes, and `None` for every other string — including the
catalog codes D1, W1 and MN1. -/
theorem C3_amended_factory :
    (∀ c : String, (Sampler.from_short c).isSome = true ↔ c ∈ knownCodes) ∧
    Sampler.from_short ("D1") = none ∧ Sampler.from_short ("W1") = none ∧
      Sampler.from_short ("MN1") = none := by
  refine ⟨fun c => ?_, rfl, rfl, rfl⟩
  unfold Sampler.from_short
  split <;> simp_all [knownCodes]

/-- C7: every per-timeframe boundary function is (as embedded, a pure
function of the timestamp alone) monotone, and its value is strictly greater
than its argument. -/
theorem C7_boundary_monotone_strict (sp : Sampler) :
    (∀ t1 t2 : ℕ, t1 ≤ t2 → sp.next_bar_dt t1 ≤ sp.next_bar_dt t2) ∧
    ∀ t : ℕ, t < sp.next_bar_dt t :=
  ⟨fun _ _ h => next_bar_dt_mono sp h, next_bar_dt_gt sp⟩

/-- Witness for C7 on the monthly sampler at concrete timestamps. -/
theorem C7_witness :
    Sampler.next_bar_dt .Mn1 0 ≤ Sampler.next_bar_dt .Mn1 100 ∧
      100 < Sampler.next_bar_dt .Mn1 100 :=
  ⟨(C7_boundary_monotone_strict .Mn1).1 0 100 (by decide),
    (C7_boundary_monotone_strict .Mn1).2 100⟩

/-- C8: for a timestamp in December of year `y` the monthly boundary is
midnight of January 1 of year `y + 1` (the year increments and the computed
next month is January, never month 13); for any other month `m` it is
midnight of the first of month `m + 1` of the same year. -/
theorem C8_month_rollover (t y : ℕ) (hy : (civilFromDays (t / 86400)).1 = y) :
    ((civilFromDays (t / 86400)).2.1 = 12 →
      Sampler.next_bar_dt .Mn1 t = 86400 * daysFromCivil (y + 1) 1 1 ∧
      civilFromDays (Sampler.next_bar_dt .Mn1 t / 86400) = (y + 1, 1, 1)) ∧
    ∀ m, (civilFromDays (t / 86400)).2.1 = m → m ≠ 12 →
      Sampler.next_bar_dt .Mn1 t = 86400 * daysFromCivil y (m + 1) 1 := by
  constructor
  · intro h12
    have hbranch : Sampler.next_bar_dt .Mn1 t = 86400 * daysFromCivil (y + 1) 1 1 := by
      show mn1_next_bar_dt t = _
      unfold mn1_next_bar_dt
      rw [if_pos h12, hy]
    refine ⟨hbranch, ?_⟩
    have hmsd : daysFromCivil (y + 1) 1 1 = msd (y * 12 + 10) := by
      unfold daysFromCivil
      norm_num
    rw [hbranch, hmsd]
    have hdiv : 86400 * msd (y * 12 + 10) / 86400 = msd (y * 12 + 10) := by omega
    rw [hdiv, civil_msd]
    have hmod : (y * 12 + 10) % 12 = 10 := by omega
    have hdiv12 : (y * 12 + 10) / 12 = y := by omega
    rw [hmod, hdiv12]
    norm_num
  · intro m hm hne
    show mn1_next_bar_dt t = _
    unfold mn1_next_bar_dt
    rw [hm, hy, if_neg hne]

/-- Witness for C8 at 2020-12-15, whose next monthly boundary is
2021-01-01. -/
theorem C8_witness :
    Sampler.next_bar_dt .Mn1 (86400 * daysFromCivil 2020 12 15) =
      86400 * daysFromCivil (2020 + 1) 1 1 ∧
    civilFromDays (Sampler.next_bar_dt .Mn1 (86400 * daysFromCivil 2020 12 15) / 86400) =
      (2020 + 1, 1, 1) :=
  (C8_month_rollover (86400 * daysFromCivil 2020 12 15) 2020 (by decide)).1 (by decide)

/-- C9: on the weekly sampler, a first tick on Monday 2021-01-04 10:45:02
seeds the period [2021-01-04 00:00, 2021-01-11 00:00); after a tick in the
following week, a tick on Tuesday 2021-01-26 00:00 emits exactly one closed
bar (covering [2021-01-11, 2021-01-18)) plus exactly one empty bar covering
the week [2021-01-18 00:00, 2021-01-25 00:00). -/
theorem C9_weekly_alignment :
    (Sampler.next_bar .W1 none (86400 * daysFromCivil 2021 1 4 + 38702) 0) =
      (none, some ⟨86400 * daysFromCivil 2021 1 4, 86400 * daysFromCivil 2021 1 11,
        0, 0, 0, 0⟩) ∧
    (Sampler.next_bar .W1
        (Sampler.next_bar .W1
          (Sampler.next_bar .W1 none (86400 * daysFromCivil 2021 1 4 + 38702) 0).2
          (86400 * daysFromCivil 2021 1 11) 2).2
        (86400 * daysFromCivil 2021 1 26) 3).1 =
      some (Bars.WithEmpty
        ⟨2, 2, 2, 2, 86400 * daysFromCivil 2021 1 11, 86400 * daysFromCivil 2021 1 18⟩
        [⟨2, 2, 2, 2, 86400 * daysFromCivil 2021 1 18, 86400 * daysFromCivil 2021 1 25⟩]) := by
  decide

/-- C10: `next_bar` always terminates.  Whenever the sampler has a state, the
returned state has its boundary strictly past the tick timestamp (the
gap-fill loop stops at the first boundary beyond `t`), and the fuel `t + 1`
given to the modelled loop is sufficient: any fuel larger than `t` produces
the identical result. -/
theorem C10_terminates (sp : Sampler) (st : State) (t : ℕ) (v : ℚ) (st' : State)
    (fuel : ℕ) (hst : (sp.next_bar (some st) t v).2 = some st') (hfuel : t < fuel) :
    t < st'.next_bar_dt ∧
    gapLoop (sp.next_bar_dt) st.close t fuel st.next_bar_dt
        (sp.next_bar_dt st.next_bar_dt) =
      gapLoop (sp.next_bar_dt) st.close t (t + 1) st.next_bar_dt
        (sp.next_bar_dt st.next_bar_dt) := by
  obtain ⟨n1, e1, c1, l1⟩ := gapLoop_iterates (sp.next_bar_dt) st.close t
    (next_bar_dt_gt sp) fuel st.next_bar_dt (by omega)
  obtain ⟨n2, e2, c2, l2⟩ := gapLoop_iterates (sp.next_bar_dt) st.close t
    (next_bar_dt_gt sp) (t + 1) st.next_bar_dt (by omega)
  have hn : n1 = n2 := loop_count_unique (sp.next_bar_dt) t st.next_bar_dt n1 n2 c1 l1 c2 l2
  constructor
  · by_cases hc : st.next_bar_dt ≤ t
    · simp only [Sampler.next_bar, if_pos hc] at hst
      rw [e2] at hst
      simp only [List.length_map, List.length_range] at hst
      rcases Nat.eq_zero_or_pos n2 with hz | hz
      · rw [if_neg (by omega)] at hst
        obtain rfl : st' = ⟨(Sampler.next_bar_dt sp)^[n2] st.next_bar_dt,
            (Sampler.next_bar_dt sp)^[n2 + 1] st.next_bar_dt, v, v, v, v⟩ :=
          (Option.some.injEq _ _ ▸ hst).symm
        exact l2
      · rw [if_pos hz] at hst
        obtain rfl : st' = ⟨(Sampler.next_bar_dt sp)^[n2] st.next_bar_dt,
            (Sampler.next_bar_dt sp)^[n2 + 1] st.next_bar_dt, v, v, v, v⟩ :=
          (Option.some.injEq _ _ ▸ hst).symm
        exact l2
    · simp only [Sampler.next_bar, if_neg hc] at hst
      obtain rfl : st' = ⟨st.bar_start, st.next_bar_dt, st.open_, max v st.high,
          min v st.low, v⟩ := (Option.some.injEq _ _ ▸ hst).symm
      simpa using (by omega : t < st.next_bar_dt)
  · rw [e1, e2, hn]

/-- Witness for C10 on an M1 sampler: the tick at second 130 closes the
period ending at 60, gap-fills [60, 120), and the resulting boundary 180
lies strictly past 130; fuel 200 and fuel 131 agree. -/
theorem C10_witness :
    (130 : ℕ) < (⟨120, 180, 2, 2, 2, 2⟩ : State).next_bar_dt ∧
    gapLoop (Sampler.next_bar_dt .M1) 1 130 200 60 (Sampler.next_bar_dt .M1 60) =
      gapLoop (Sampler.next_bar_dt .M1) 1 130 131 60 (Sampler.next_bar_dt .M1 60) :=
  C10_terminates .M1 ⟨0, 60, 1, 1, 1, 1⟩ 130 2 ⟨120, 180, 2, 2, 2, 2⟩ 200
    (by decide) (by decide)

/-- C6: whenever a call emits bars, the emitted sequence (closing bar first,
then the empty bars in order) is contiguous and gapless: the first emitted
bar is the accumulated one, each bar ends where the next begins, every bar
covers a nonempty period ending one boundary step after its start, and the
new in-progress period begins exactly at the last emitted bar's end. -/
theorem C6_contiguous (sp : Sampler) (st : State) (t : ℕ) (v : ℚ)
    (hwf : st.bar_start < st.next_bar_dt) (h : st.next_bar_dt ≤ t) :
    ∃ bs st', sp.next_bar (some st) t v = (some bs, some st') ∧
      (barsList bs).head? =
        some ⟨st.open_, st.high, st.low, st.close, st.bar_start, st.next_bar_dt⟩ ∧
      List.Chain' (fun a b => a.next_bar_dt = b.bar_start) (barsList bs) ∧
      (∀ b ∈ barsList bs, b.bar_start < b.next_bar_dt) ∧
      (∀ lb, (barsList bs).getLast? = some lb → lb.next_bar_dt = st'.bar_start) ∧
      st'.next_bar_dt = sp.next_bar_dt st'.bar_start := by
  obtain ⟨n, heq, hcond, hlast⟩ := gapLoop_iterates (sp.next_bar_dt) st.close t
    (next_bar_dt_gt sp) (t + 1) st.next_bar_dt (by omega)
  have hnb : sp.next_bar (some st) t v =
      (if 0 < n then
        some (Bars.WithEmpty
          ⟨st.open_, st.high, st.low, st.close, st.bar_start, st.next_bar_dt⟩
          ((List.range n).map fun j =>
            (⟨st.close, st.close, st.close, st.close,
              (Sampler.next_bar_dt sp)^[j] st.next_bar_dt,
              (Sampler.next_bar_dt sp)^[j + 1] st.next_bar_dt⟩ : Bar)))
      else
        some (Bars.Single ⟨st.open_, st.high, st.low, st.close, st.bar_start,
          st.next_bar_dt⟩),
      some ⟨(Sampler.next_bar_dt sp)^[n] st.next_bar_dt,
        (Sampler.next_bar_dt sp)^[n + 1] st.next_bar_dt, v, v, v, v⟩) := by
    simp only [Sampler.next_bar, if_pos h]
    rw [heq]
    simp only [List.length_map, List.length_range]
    rcases Nat.eq_zero_or_pos n with hz | hz
    · rw [if_neg (by omega), if_neg (by omega)]
    · rw [if_pos hz, if_pos hz]
  rcases Nat.eq_zero_or_pos n with hz | hz
  · subst hz
    rw [if_neg (by omega)] at hnb
    refine ⟨_, _, hnb, ?_, ?_, ?_, ?_, ?_⟩
    · simp [barsList]
    · exact List.chain'_singleton _
    · simp only [barsList, List.mem_singleton]
      rintro b rfl
      exact hwf
    · intro lb hlb
      simp only [barsList, List.getLast?_singleton, Option.some.injEq] at hlb
      subst hlb
      simp [Function.iterate_zero_apply]
    · show (Sampler.next_bar_dt sp)^[0 + 1] st.next_bar_dt = _
      simp [Function.iterate_zero_apply]
  · obtain ⟨n', rfl⟩ : ∃ n', n = n' + 1 := ⟨n - 1, by omega⟩
    rw [if_pos hz] at hnb
    refine ⟨_, _, hnb, ?_, ?_, ?_, ?_, ?_⟩
    · simp [barsList]
    · show List.Chain' _ (_ :: _)
      rw [List.chain'_cons']
      constructor
      · intro y hy
        rw [List.range_succ_eq_map, List.map_cons, List.head?_cons] at hy
        simp only [Option.mem_def, Option.some.injEq] at hy
        subst hy
        simp [Function.iterate_zero_apply]
      · rw [List.chain'_map, List.chain'_range_succ]
        intro m hm
        rfl
    · simp only [barsList, List.mem_cons]
      rintro b (rfl | hb)
      · exact hwf
      · obtain ⟨j, hj, rfl⟩ := List.mem_map.mp hb
        show (Sampler.next_bar_dt sp)^[j] st.next_bar_dt <
          (Sampler.next_bar_dt sp)^[j + 1] st.next_bar_dt
        rw [Function.iterate_succ_apply']
        exact next_bar_dt_gt sp _
    · intro lb hlb
      simp only [barsList] at hlb
      rw [List.range_succ, List.map_append, List.map_cons, List.map_nil, ← List.cons_append,
        List.getLast?_concat, Option.some.injEq] at hlb
      subst hlb
      rfl
    · show (Sampler.next_bar_dt sp)^[n' + 1 + 1] st.next_bar_dt = _
      rw [Function.iterate_succ_apply']

/-- Witness for C6 on an M1 sampler closing the period [0, 60) with a tick at
second 130. -/
theorem C6_witness :
    ∃ bs st', Sampler.next_bar .M1 (some ⟨0, 60, 1, 2, 0, 1⟩) 130 5 =
        (some bs, some st') ∧
      (barsList bs).head? = some ⟨1, 2, 0, 1, 0, 60⟩ ∧
      List.Chain' (fun a b => a.next_bar_dt = b.bar_start) (barsList bs) ∧
      (∀ b ∈ barsList bs, b.bar_start < b.next_bar_dt) ∧
      (∀ lb, (barsList bs).getLast? = some lb → lb.next_bar_dt = st'.bar_start) ∧
      st'.next_bar_dt = Sampler.next_bar_dt .M1 st'.bar_start :=
  C6_contiguous .M1 ⟨0, 60, 1, 2, 0, 1⟩ 130 5 (by decide) (by decide)

/-- C1: from an accumulating state over an aligned period of length `L`, a
tick at `t0` inside the period followed by a tick at `t0 + k * L` (`k ≥ 2`,
nothing between) emits exactly one closed bar (the accumulation including
`t0`) followed by exactly `k - 1` empty bars, each spanning one period and
carrying flat OHLC equal to the close of the bar just closed. -/
theorem C1_gapfill_count (sp : Sampler) (L : ℕ) (hL : periodLen sp = some L)
    (st : State) (ha : alignedb sp st.next_bar_dt = true)
    (hspan : st.next_bar_dt = st.bar_start + L)
    (t0 : ℕ) (h0 : st.bar_start ≤ t0) (h0' : t0 < st.next_bar_dt)
    (k : ℕ) (hk : 2 ≤ k) (p0 p1 : ℚ) :
    (sp.next_bar (some st) t0 p0).1 = none ∧
    (sp.next_bar ((sp.next_bar (some st) t0 p0).2) (t0 + k * L) p1).1 =
      some (Bars.WithEmpty
        ⟨st.open_, max p0 st.high, min p0 st.low, p0, st.bar_start, st.next_bar_dt⟩
        ((List.range (k - 1)).map fun j =>
          (⟨p0, p0, p0, p0, st.next_bar_dt + j * L, st.next_bar_dt + (j + 1) * L⟩ : Bar))) ∧
    ((List.range (k - 1)).map fun j =>
      (⟨p0, p0, p0, p0, st.next_bar_dt + j * L, st.next_bar_dt + (j + 1) * L⟩ : Bar)).length =
      k - 1 := by
  have hLpos := periodLen_pos sp L hL
  have hcond0 : ¬ st.next_bar_dt ≤ t0 := by omega
  have hstep1 : sp.next_bar (some st) t0 p0 =
      (none, some ⟨st.bar_start, st.next_bar_dt, st.open_, max p0 st.high,
        min p0 st.low, p0⟩) := by
    simp only [Sampler.next_bar, if_neg hcond0]
  refine ⟨by rw [hstep1], ?_, by simp⟩
  rw [hstep1]
  have hgrid := aligned_iterate sp L st.next_bar_dt hL ha
  obtain ⟨n, heq, hcond, hlast⟩ := gapLoop_iterates (sp.next_bar_dt) p0 (t0 + k * L)
    (next_bar_dt_gt sp) (t0 + k * L + 1) st.next_bar_dt (by omega)
  have hkL : (k - 1) * L + L = k * L := by
    rw [← Nat.succ_mul]
    congr 1
    omega
  have hn : n = k - 1 := by
    refine loop_count_unique (sp.next_bar_dt) (t0 + k * L) st.next_bar_dt n (k - 1)
      hcond hlast ?_ ?_
    · intro j hj1 hj2
      rw [(hgrid j).1]
      have : j * L ≤ (k - 1) * L := Nat.mul_le_mul_right L hj2
      omega
    · rw [(hgrid (k - 1 + 1)).1]
      have : (k - 1 + 1) * L = k * L := by
        congr 1
        omega
      omega
  subst hn
  have hcond1 : st.next_bar_dt ≤ t0 + k * L := by
    have h1L : 1 * L ≤ k * L := Nat.mul_le_mul_right L (by omega)
    omega
  simp only [Sampler.next_bar, if_pos hcond1]
  rw [heq]
  simp only [List.length_map, List.length_range]
  rw [if_pos (by omega : 0 < k - 1)]
  have hfun : (fun j => (⟨p0, p0, p0, p0, (Sampler.next_bar_dt sp)^[j] st.next_bar_dt,
      (Sampler.next_bar_dt sp)^[j + 1] st.next_bar_dt⟩ : Bar)) =
      fun j => (⟨p0, p0, p0, p0, st.next_bar_dt + j * L,
        st.next_bar_dt + (j + 1) * L⟩ : Bar) := by
    funext j
    rw [(hgrid j).1, (hgrid (j + 1)).1]
  rw [hfun]

/-- Witness for C1 on an M1 sampler: period [60, 120), tick at 70, then a
tick at 70 + 3 * 60, giving one closed bar and two empty bars. -/
theorem C1_witness :
    (Sampler.next_bar .M1 (some ⟨60, 120, 1, 1, 1, 1⟩) 70 2).1 = none ∧
    (Sampler.next_bar .M1 ((Sampler.next_bar .M1 (some ⟨60, 120, 1, 1, 1, 1⟩) 70 2).2)
        (70 + 3 * 60) 5).1 =
      some (Bars.WithEmpty ⟨1, max 2 1, min 2 1, 2, 60, 120⟩
        ((List.range (3 - 1)).map fun j =>
          (⟨2, 2, 2, 2, 120 + j * 60, 120 + (j + 1) * 60⟩ : Bar))) ∧
    ((List.range (3 - 1)).map fun j =>
      (⟨2, 2, 2, 2, 120 + j * 60, 120 + (j + 1) * 60⟩ : Bar)).length = 3 - 1 :=
  C1_gapfill_count .M1 60 (by decide) ⟨60, 120, 1, 1, 1, 1⟩ (by decide) (by decide)
    70 (by decide) (by decide) 3 (by decide) 2 5

end Metabars
